import Mathlib

/-!
Verification model of the session-scoped hybrid code-retrieval engine of the
`github-agent-demo` repository.

The Python sources embedded here are:
* `app/services/chunking_service.py` — `PythonASTChunker`
* `app/services/vector_service.py`   — `VectorStore` (document store, dense
  index, lexical index, reset / add / search / get-by-file)
* `app/services/agent_service.py`    — `agent_stream` exploration controller

External capabilities (the Gemini embedding/completion client, the
`rank_bm25` scorer, the `chromadb` collection, and the GitHub
listing/fetch client, the latter living in `app/services/github_service.py`
which is not part of the analysed sources) are modelled as oracle
parameters, with their documented contracts made explicit where the
behaviour matters (an empty list is the failure sentinel of the embedding
and fetch capabilities; a chroma record set must have fields of equal
length).  Python floats are modelled as exact rationals `ℚ`.
-/

namespace GithubAgent

/-! ### Data model -/

/-- Metadata dictionary attached to a chunk or stored document.
`chunking_service.py` emits `file/type/name/start_line/class`;
`agent_service.py` and `chat_service.py` rebuild a reduced copy without
`start_line` before calling `add_documents`, hence `startLine` is optional.
`cls` is the Python key `"class"`. -/
structure Metadata where
  file : String
  type : String
  name : String
  cls : String
  startLine : Option Nat
  deriving DecidableEq, Repr

/-- A chunk produced by `PythonASTChunker.chunk_file`: the fragment text plus
its metadata dictionary. -/
structure Chunk where
  content : String
  metadata : Metadata
  deriving DecidableEq, Repr

/-- A statement in a class body as seen by the chunker's one-level walk:
either a (sync or async) method with its `ast.get_source_segment` result and
`lineno`, or any other statement (skipped). -/
inductive PyMember where
  | methodDef (name : String) (seg : Option String) (lineno : Nat)
  | otherStmt
  deriving DecidableEq, Repr

/-- A top-level node of a parsed Python module (`tree.body`): a class with its
source segment, docstring and body, a (sync or async) function with its
source segment, or any other top-level statement (skipped by the walk). -/
inductive PyNode where
  | classDef (name : String) (seg : Option String) (docstring : Option String)
      (body : List PyMember) (lineno : Nat)
  | funcDef (name : String) (seg : Option String) (lineno : Nat)
  | other
  deriving DecidableEq, Repr

/-! ### Python string helpers -/

/-- Splitting a character list at every character satisfying `p`, keeping
empty pieces, exactly like Python's `str.split(sep)` for a one-character
separator and like `re.split` for a one-character-class pattern.  The result
is never empty: splitting the empty string yields `[""]`. -/
def pySplitP (p : Char → Bool) : List Char → List (List Char)
  | [] => [[]]
  | c :: cs =>
    if p c then [] :: pySplitP p cs
    else
      match pySplitP p cs with
      | [] => [[c]]
      | t :: ts => (c :: t) :: ts

/-- String-level wrapper of `pySplitP`. -/
def pySplit (p : Char → Bool) (s : String) : List String :=
  (pySplitP p s.data).map fun cs => String.mk cs

theorem pySplitP_ne_nil (p : Char → Bool) (cs : List Char) : pySplitP p cs ≠ [] := by
  induction cs with
  | nil => simp [pySplitP]
  | cons c cs ih =>
    simp only [pySplitP]
    split
    · simp
    · split
      · simp
      · simp

theorem pySplit_ne_nil (p : Char → Bool) (s : String) : pySplit p s ≠ [] := by
  simp [pySplit, pySplitP_ne_nil]

/-! ### Chunker (`chunking_service.py`) -/

/-- Python truthiness of an optional source segment: `if not seg: continue`
skips both `None` and the empty string, so both collapse to `none`. -/
def segStr : Option String → Option String
  | none => none
  | some s => if s = "" then none else some s

/-- The default hard size parameters of `PythonASTChunker.__init__`. -/
def defaultMinChunkSize : Nat := 50

/-- Default `max_chunk_size`: a class longer than this is decomposed into
per-method chunks. -/
def defaultMaxChunkSize : Nat := 2000

/-- Python `ast.get_docstring(node) or "No docstring"`: `None` and the empty
docstring both fall back to the literal. -/
def docstringOr : Option String → String
  | none => "No docstring"
  | some s => if s = "" then "No docstring" else s

/-- The fixed-size windowing fallback `_fallback_chunking`: the line list is
cut into windows of 100 lines, each window becoming a `text_chunk` whose
name records the 0-based first line index and whose `start_line` is that
index plus one. -/
def pyWindows (fp : String) : List String → Nat → List Chunk
  | [], _ => []
  | l :: ls, i =>
    { content := String.intercalate "\n" ((l :: ls).take 100),
      metadata := { file := fp, type := "text_chunk", name := "chunk_" ++ toString i,
                    cls := "", startLine := some (i + 1) } }
      :: pyWindows fp ((l :: ls).drop 100) (i + 100)
  termination_by ls _ => ls.length
  decreasing_by simp [List.length_drop]; omega

/-- `_fallback_chunking(content, file_path)`: split on newlines and window. -/
def fallbackChunking (content fp : String) : List Chunk :=
  pyWindows fp (pySplit (fun c => c = '\n') content) 0

/-- `_chunk_large_class`: every method of the class body becomes a `method`
chunk whose content is the synthetic class-context header, a newline, and the
method's source segment; methods with a falsy source segment are skipped. -/
def chunkLargeClass (fp nm : String) (ds : Option String) (body : List PyMember) :
    List Chunk :=
  let header :=
    "class " ++ nm ++ ":\n    \"\"\"" ++ docstringOr ds ++ "\"\"\"\n    # ... (Parent Context)\n"
  body.filterMap fun m =>
    match m with
    | .methodDef mn seg ln =>
      match segStr seg with
      | none => none
      | some code =>
        some { content := header ++ "\n" ++ code,
               metadata := { file := fp, type := "method", name := mn, cls := nm,
                             startLine := some ln } }
    | .otherStmt => none

/-- Chunks contributed by one top-level node of the parsed module: a class is
kept whole when its source segment is at most `maxSz` characters and
decomposed by `chunkLargeClass` otherwise; a function is kept when its source
segment is truthy and at least `minSz` characters; other statements yield
nothing. -/
def nodeChunks (minSz maxSz : Nat) (fp : String) : PyNode → List Chunk
  | .classDef nm seg ds body ln =>
    match segStr seg with
    | none => []
    | some code =>
      if code.length ≤ maxSz then
        [{ content := code,
           metadata := { file := fp, type := "class", name := nm, cls := nm,
                         startLine := some ln } }]
      else chunkLargeClass fp nm ds body
  | .funcDef nm seg ln =>
    match segStr seg with
    | none => []
    | some code =>
      if minSz ≤ code.length then
        [{ content := code,
           metadata := { file := fp, type := "function", name := nm, cls := "",
                         startLine := some ln } }]
      else []
  | .other => []

/-- `PythonASTChunker.chunk_file(content, file_path)`.  The result of
`ast.parse` is supplied as `pr`; `none` models a `SyntaxError` (the only
exception the code catches), `some nodes` a successful parse with the given
top-level body.  Empty content returns no chunks; a failed parse degrades to
the windowing fallback; a successful parse whose walk produced no chunks for
non-empty content also degrades to the fallback. -/
def chunkFile (minSz maxSz : Nat) (pr : Option (List PyNode)) (content fp : String) :
    List Chunk :=
  if content = "" then []
  else
    match pr with
    | none => fallbackChunking content fp
    | some nodes =>
      let chunks := nodes.flatMap (nodeChunks minSz maxSz fp)
      if chunks = [] ∧ 0 < content.length then fallbackChunking content fp
      else chunks

/-! ### Vector store (`vector_service.py`) -/

/-- A record of the in-memory document store `self.doc_store`: the
store-assigned id, the raw content, and the metadata dictionary. -/
structure Doc where
  id : String
  content : String
  metadata : Metadata
  deriving DecidableEq, Repr

/-- A record of the chroma collection (the dense index): id, embedding
vector, document text and metadata, as stored by `collection.add`. -/
structure DenseRec where
  id : String
  embedding : List ℚ
  content : String
  metadata : Metadata
  deriving DecidableEq, Repr

/-- A result dictionary as returned by `search_hybrid` and
`get_documents_by_file`: id, content, the top-level `file` key, the metadata
dictionary, and the constant placeholder score. -/
structure RDoc where
  id : String
  content : String
  file : String
  metadata : Metadata
  score : ℚ
  deriving DecidableEq, Repr

/-- The per-session mutable state of a `VectorStore`: `repo_url`,
`indexed_files`, `doc_store`, the chroma collection, and the BM25 object,
represented by the tokenized corpus it was built from (`None` before the
first successful `add_documents`). -/
structure VState where
  repoUrl : Option String
  indexedFiles : List String
  docStore : List Doc
  collection : List DenseRec
  bm25corpus : Option (List (List String))
  deriving DecidableEq, Repr

/-- The embedding capability `embed_text`: an empty vector is the failure
sentinel (missing client, or an exception from the external API). -/
abbrev EmbedFn := String → List ℚ

/-- The `rank_bm25` scoring capability `BM25Okapi(corpus).get_scores(query)`,
which returns one relevance score per corpus document. -/
abbrev BmScoreFn := List (List String) → List String → List ℚ

/-- The state every field is reset to: `reset_collection` deletes and
recreates the chroma collection and clears `bm25`, `doc_store`, `repo_url`
and `indexed_files`; `__init__` ends in the same state. -/
def emptyState : VState :=
  { repoUrl := none, indexedFiles := [], docStore := [], collection := [],
    bm25corpus := none }

/-- `VectorStore.reset_collection` (lines 26–36): clears everything,
including `repo_url`. -/
def resetCollection (_s : VState) : VState := emptyState

/-- `self._tokenize`: split on every non-alphanumeric character, drop empty
pieces, lowercase. -/
def pyTokenize (s : String) : List String :=
  ((pySplit (fun c => !c.isAlphanum) s).filter (fun t => t ≠ "")).map String.toLower

/-- Python set insertion `self.indexed_files.add(x)` (observed only through
membership, so list order is irrelevant; we append new elements). -/
def insertSet (x : String) (l : List String) : List String :=
  if x ∈ l then l else l ++ [x]

/-- `chromadb` `collection.add(documents=…, embeddings=…, metadatas=…,
ids=…)`: the library validates that all supplied record-set fields have the
same length and raises otherwise; on success the records are appended. -/
def chromaAdd (col : List DenseRec) (documents : List String)
    (embeddings : List (List ℚ)) (metadatas : List Metadata) (ids : List String) :
    Except Unit (List DenseRec) :=
  if ids.length = documents.length ∧ ids.length = embeddings.length ∧
      ids.length = metadatas.length then
    .ok (col ++ (ids.zip (embeddings.zip (documents.zip metadatas))).map
      (fun p => { id := p.1, embedding := p.2.1, content := p.2.2.1,
                  metadata := p.2.2.2 }))
  else .error ()

/-- The per-document loop of `add_documents`: for the `i`-th document, its
file is added to `indexed_files`, the id `f"{file}_{len(self.doc_store)+i}"`
is computed against the *current* store length (which already includes the
`i` documents appended earlier in the same call), the document is appended
to `doc_store`, and its embedding and id are collected only when the
embedding capability succeeds. -/
def addDocsLoop (emb : EmbedFn) :
    VState × List (List ℚ) × List String → Nat × String × Metadata →
    VState × List (List ℚ) × List String
  | (s, embs, ids), (i, doc, m) =>
    let docId := m.file ++ "_" ++ toString (s.docStore.length + i)
    let s' := { s with
      indexedFiles := insertSet m.file s.indexedFiles,
      docStore := s.docStore ++ [{ id := docId, content := doc, metadata := m }] }
    let e := emb doc
    if e = [] then (s', embs, ids) else (s', embs ++ [e], ids ++ [docId])

/-- `VectorStore.add_documents(documents, metadatas)` (lines 53–82).  The
callers build both lists in lockstep, so the model pairs them positionally.
The returned flag is `true` when the call raised: when at least one but not
every embedding succeeded, `collection.add` receives the full
`documents`/`metadatas` lists but the filtered `embeddings`/`ids` lists, the
length validation fails, and the exception propagates *before* the BM25
rebuild, leaving `bm25corpus` stale while `doc_store` and `indexed_files`
keep the appended entries. -/
def addDocuments (emb : EmbedFn) (s : VState) (documents : List String)
    (metadatas : List Metadata) : VState × Bool :=
  if documents = [] then (s, false)
  else
    let res := (documents.zip metadatas).enum.foldl (addDocsLoop emb) (s, [], [])
    let s' := res.1
    let embs := res.2.1
    let ids := res.2.2
    let afterChroma : Except Unit VState :=
      if embs = [] then .ok s'
      else
        match chromaAdd s'.collection documents embs metadatas ids with
        | .error e => .error e
        | .ok col => .ok { s' with collection := col }
    match afterChroma with
    | .error _ => (s', true)
    | .ok s'' =>
      ({ s'' with bm25corpus := some (s''.docStore.map (fun d => pyTokenize d.content)) },
       false)

/-- Ascending comparison on the `start_line` metadata key with default 0,
Python's `sorted(…, key=lambda x: x['metadata'].get('start_line', 0))`. -/
def startLineLe (a b : RDoc) : Prop :=
  a.metadata.startLine.getD 0 ≤ b.metadata.startLine.getD 0

instance : DecidableRel startLineLe := fun a b =>
  inferInstanceAs (Decidable (a.metadata.startLine.getD 0 ≤ b.metadata.startLine.getD 0))

instance : IsTotal RDoc startLineLe :=
  ⟨fun a b => Nat.le_total (a.metadata.startLine.getD 0) (b.metadata.startLine.getD 0)⟩

instance : IsTrans RDoc startLineLe :=
  ⟨fun _ _ _ h h' => Nat.le_trans h h'⟩

/-- `VectorStore.get_documents_by_file(file_path)` (lines 86–109): filter the
document store by the metadata `file` key, convert to the result format
(adding the top-level `file` key and the constant score 1.0), and stable-sort
ascending by `start_line` (default 0).  Python's `sorted` is stable; so is
`List.insertionSort`. -/
def getDocumentsByFile (s : VState) (fp : String) : List RDoc :=
  let formatted := (s.docStore.filter (fun d => d.metadata.file = fp)).map
    (fun d => { id := d.id, content := d.content, file := d.metadata.file,
                metadata := d.metadata, score := (1 : ℚ) })
  formatted.insertionSort startLineLe

/-! ### Hybrid search (`search_hybrid`, lines 111–167) -/

/-- Squared L2 distance between two coordinate lists, chroma's default
similarity metric (all stored/queried vectors share one dimension). -/
def sqDist (a b : List ℚ) : ℚ :=
  ((a.zip b).map (fun p => (p.1 - p.2) * (p.1 - p.2))).sum

/-- `collection.query(query_embeddings=[qe], n_results=n)`: the stored
records ordered by distance to the query vector, truncated to `n`. -/
def denseQuery (col : List DenseRec) (qe : List ℚ) (n : Nat) : List DenseRec :=
  (col.insertionSort (fun a b => sqDist a.embedding qe ≤ sqDist b.embedding qe)).take n

/-- The result-dictionary shape shared by both retrieval branches of
`search_hybrid`: id, content, top-level `file` key, metadata, score 0. -/
def toResult (id content : String) (m : Metadata) : RDoc :=
  { id := id, content := content, file := m.file, metadata := m, score := 0 }

/-- Step 1 of `search_hybrid`: embed the query (an empty embedding is the
failure sentinel and yields no dense results) and query the collection for
`2 × top_k` nearest records. -/
def vectorResults (emb : EmbedFn) (s : VState) (query : String) (topK : Nat) :
    List RDoc :=
  let qe := emb query
  if qe = [] then []
  else (denseQuery s.collection qe (topK * 2)).map
    (fun r => toResult r.id r.content r.metadata)

/-- Step 2 of `search_hybrid`: when a BM25 object exists, score the corpus
against the tokenized query (`get_scores` returns one score per corpus
document), stable-sort the corpus indices by score descending (Python's
`sorted(range(len(doc_scores)), key=…, reverse=True)` keeps equal-scored
indices in ascending order), truncate to `min(len, 2 × top_k)`, and keep the
documents with strictly positive score. -/
def bm25Results (bms : BmScoreFn) (s : VState) (query : String) (topK : Nat) :
    List RDoc :=
  match s.bm25corpus with
  | none => []
  | some corpus =>
    let scores := bms corpus (pyTokenize query)
    let score := fun i => scores.getD i 0
    let topN := min corpus.length (topK * 2)
    let idxs := ((List.range corpus.length).insertionSort
        (fun i j => score j ≤ score i)).take topN
    idxs.filterMap fun i =>
      if 0 < score i then
        (s.docStore.get? i).map (fun d => toResult d.id d.content d.metadata)
      else none

/-- The RRF smoothing constant `k = 60`. -/
def kConst : ℚ := 60

/-- The dense-list fusion weight `weight_vector = 1.0`. -/
def weightVector : ℚ := 1

/-- The lexical-list fusion weight `weight_bm25 = 0.3`. -/
def weightBm25 : ℚ := 3 / 10

/-- An entry of the `fused_scores` dictionary: the first-seen result
dictionary for the id, and the accumulated score. -/
structure FEntry where
  item : RDoc
  score : ℚ
  deriving DecidableEq, Repr

/-- One fusion step: `fused_scores[doc_id]["score"] += weight * (1/(k+rank+1))`,
creating the entry with the first-seen item and score 0 when absent.  The
association list mirrors a Python dict's insertion order. -/
def addContrib (w : ℚ) (F : List FEntry) (rank : Nat) (it : RDoc) : List FEntry :=
  if F.any (fun e => e.item.id = it.id) then
    F.map fun e =>
      if e.item.id = it.id then { e with score := e.score + w * (1 / (kConst + rank + 1)) }
      else e
  else F ++ [{ item := it, score := w * (1 / (kConst + rank + 1)) }]

/-- `for rank, item in enumerate(l): …` folding `addContrib` with 0-based
ranks starting at `n`. -/
def fuseFrom (w : ℚ) (F : List FEntry) (n : Nat) : List RDoc → List FEntry
  | [] => F
  | it :: l => fuseFrom w (addContrib w F n it) (n + 1) l

/-- Step 3 of `search_hybrid`: the `fused_scores` dictionary after both
enumeration loops, dense list first with weight 1.0, lexical list second
with weight 0.3. -/
def fusedOf (vres bres : List RDoc) : List FEntry :=
  fuseFrom weightBm25 (fuseFrom weightVector [] 0 vres) 0 bres

/-- Descending comparison on fused scores, Python's
`sorted(…, key=lambda x: x['score'], reverse=True)` (stable: equal scores
keep dictionary insertion order). -/
def fusedGe (a b : FEntry) : Prop := b.score ≤ a.score

instance : DecidableRel fusedGe := fun a b =>
  inferInstanceAs (Decidable (b.score ≤ a.score))

instance : IsTotal FEntry fusedGe := ⟨fun a b => le_total b.score a.score⟩

instance : IsTrans FEntry fusedGe := ⟨fun _ _ _ h h' => le_trans h' h⟩

/-- `VectorStore.search_hybrid(query, top_k)` (lines 111–167): dense
retrieval, lexical retrieval, weighted reciprocal-rank fusion, stable sort
by fused score descending, truncation to `top_k`, and projection to the
stored items. -/
def searchHybrid (emb : EmbedFn) (bms : BmScoreFn) (s : VState) (query : String)
    (topK : Nat) : List RDoc :=
  let fused := fusedOf (vectorResults emb s query topK) (bm25Results bms s query topK)
  ((fused.insertionSort fusedGe).take topK).map (fun e => e.item)

/-! ### Exploration controller (`agent_service.py`) -/

/-- The `step` tags of the progress events `agent_stream` yields (the three
`plan`-step messages — forced README, stop, decision — share one tag, as in
the source; the streamed report fragments between `generating` and `finish`
are elided). -/
inductive Ev where
  | init
  | error
  | fetched
  | thinking
  | plan
  | download
  | indexing
  | generating
  | finish
  deriving DecidableEq, Repr

/-- The external collaborators of one `agent_stream` run: the embedding
capability, the `ast.parse` outcome per file content, the repository file
listing (`get_repo_structure`, empty on failure), the parsed planning answer
of the LLM per round (an unparsable answer is the empty list), and the file
fetcher (`get_file_content`, empty string on failure).  The GitHub client
itself lives in `app/services/github_service.py`, outside the analysed
sources; only its documented interface is used here. -/
structure AgentOracles where
  emb : EmbedFn
  parseOf : String → Option (List PyNode)
  listing : List String
  planOut : Nat → List String
  fetch : String → String

/-- The reduced metadata dictionary `agent_service.py` and `chat_service.py`
build before indexing: `file`, `type`, `name` and `class` are copied,
`start_line` is dropped. -/
def callerMeta (m : Metadata) : Metadata :=
  { file := m.file, type := m.type, name := m.name, cls := m.cls, startLine := none }

/-- Fetch-chunk-index of a single planned file (the body of the
`for i, file_path in enumerate(valid_files)` loop): a failed fetch is
skipped silently before `visited_files.add`; an empty chunking result is
skipped after it; otherwise the chunks are indexed (the agent's chunker uses
`min_chunk_size=50` and the default maximum).  The returned flag reports an
exception escaping `add_documents`. -/
def processFile (o : AgentOracles) (s : VState) (visited : List String) (f : String) :
    List Ev × VState × List String × Bool :=
  let c := o.fetch f
  if c = "" then ([Ev.download], s, visited, false)
  else
    let visited' := visited ++ [f]
    let chunks := chunkFile defaultMinChunkSize defaultMaxChunkSize (o.parseOf c) c f
    if chunks = [] then ([Ev.download], s, visited', false)
    else
      let documents := chunks.map (fun c => c.content)
      let metadatas := chunks.map (fun c => callerMeta c.metadata)
      let r := addDocuments o.emb s documents metadatas
      ([Ev.download], r.1, visited', r.2)

/-- The planned files of one round, processed in order; an exception aborts
the remaining files (it propagates to the run's outer handler). -/
def processFiles (o : AgentOracles) :
    List String → VState → List String → List Ev × VState × List String × Bool
  | [], s, visited => ([], s, visited, false)
  | f :: fs, s, visited =>
    let r := processFile o s visited f
    if r.2.2.2 then r
    else
      let r2 := processFiles o fs r.2.1 r.2.2.1
      (r.1 ++ r2.1, r2.2)

/-- The `for round_idx in range(MAX_ROUNDS)` loop: plan via the LLM oracle,
keep only listed and unvisited paths, force the README into round 0, stop
when nothing remains, otherwise fetch and index the files.  The flag reports
an exception that aborted the run. -/
def runRounds (o : AgentOracles) (readme : Option String) :
    List Nat → VState → List String → List Ev × VState × Bool
  | [], s, _ => ([], s, false)
  | idx :: rest, s, visited =>
    let targets := o.planOut idx
    let valid := targets.filter fun f => decide (f ∈ o.listing ∧ f ∉ visited)
    let forced :=
      match readme with
      | some r => if idx = 0 ∧ r ∉ valid then (r :: valid, [Ev.plan]) else (valid, [])
      | none => (valid, [])
    if forced.1 = [] then ([Ev.thinking] ++ forced.2 ++ [Ev.plan], s, false)
    else
      let r := processFiles o forced.1 s visited
      if r.2.2.2 then ([Ev.thinking] ++ forced.2 ++ [Ev.plan] ++ r.1, r.2.1, true)
      else
        let r2 := runRounds o readme rest r.2.1 r.2.2.1
        ([Ev.thinking] ++ forced.2 ++ [Ev.plan] ++ r.1 ++ [Ev.indexing] ++ r2.1,
         r2.2)

/-- `agent_stream(repo_url, session_id)` as the sequence of emitted event
tags plus the session store's final state.  After the `init` event the store
is reset and `repo_url` is assigned (in that order — the source comments
insist the assignment must follow the reset because the reset clears the
URL).  An empty file listing yields the `error` event and returns at once;
otherwise three rounds run, and the run ends in `generating`/`finish`, or in
`error` when an exception aborted it (partial indexing is retained). -/
def agentStream (o : AgentOracles) (url : String) (s0 : VState) : List Ev × VState :=
  let s1 := { resetCollection s0 with repoUrl := some url }
  if o.listing = [] then ([Ev.init, Ev.error], s1)
  else
    let readme := o.listing.find? fun f => f.toLower.endsWith "readme.md"
    let r := runRounds o readme [0, 1, 2] s1 []
    ([Ev.init, Ev.fetched] ++ r.1 ++
      (if r.2.2 then [Ev.error] else [Ev.generating, Ev.finish]), r.2.1)

/-! ### Reachable session states -/

/-- The states a session's `VectorStore` can be in: freshly constructed
(`__init__` ends in `reset_collection`), after a reset, after an
`add_documents` call (raising or not — the partial mutations persist), or
after the caller assigned `repo_url` (as `agent_stream` does right after the
reset). -/
inductive Reachable : VState → Prop where
  | empty : Reachable emptyState
  | reset (s : VState) : Reachable s → Reachable (resetCollection s)
  | add (emb : EmbedFn) (docs : List String) (metas : List Metadata) {s : VState} :
      Reachable s → Reachable (addDocuments emb s docs metas).1
  | setUrl (u : String) {s : VState} :
      Reachable s → Reachable { s with repoUrl := some u }

/-! ### Helper lemmas -/

theorem str_length_pos {s : String} (h : s ≠ "") : 0 < s.length := by
  cases s with
  | mk l =>
    cases l with
    | nil => exact absurd rfl h
    | cons c cs => simp [String.length]

theorem pyWindows_ne_nil (fp : String) (l : String) (ls : List String) (i : Nat) :
    pyWindows fp (l :: ls) i ≠ [] := by
  rw [pyWindows]
  exact List.cons_ne_nil _ _

theorem fallbackChunking_ne_nil (content fp : String) :
    fallbackChunking content fp ≠ [] := by
  unfold fallbackChunking
  cases hsp : pySplit (fun c => c = '\n') content with
  | nil => exact absurd hsp (pySplit_ne_nil _ _)
  | cons l ls => exact pyWindows_ne_nil fp l ls 0

/-! ### C1 — `reset()` and `repo_url` -/

/-- A session state in the middle of an exploration: `repo_url` assigned,
one file indexed. -/
def c1State : VState :=
  { repoUrl := some "https://github.com/example/repo",
    indexedFiles := ["a.py"],
    docStore := [{ id := "a.py_0", content := "def f():\n    pass",
                   metadata := { file := "a.py", type := "function", name := "f",
                                 cls := "", startLine := none } }],
    collection := [], bm25corpus := none }

/-- C1 (counterexample): the claim says `reset()` leaves the session's
`repo_url` unchanged, but `reset_collection` (vector_service.py line 34)
sets `self.repo_url = None`: on a state whose `repo_url` is assigned, the
field does change. -/
theorem c1_counterexample : (resetCollection c1State).repoUrl ≠ c1State.repoUrl := by
  decide

/-- C1 (amended): `reset()` clears the document store, the dense index, the
lexical index and the `indexed_files` set, and *also* clears `repo_url`; the
caller must reassign `repo_url` after every reset (which `agent_stream`
lines 47–50 does, as its comment explains). -/
theorem c1_reset_clears_everything (s : VState) :
    (resetCollection s).docStore = [] ∧ (resetCollection s).collection = [] ∧
    (resetCollection s).bm25corpus = none ∧ (resetCollection s).indexedFiles = [] ∧
    (resetCollection s).repoUrl = none :=
  ⟨rfl, rfl, rfl, rfl, rfl⟩

/-! ### C5 — non-empty input always yields at least one chunk -/

/-- C5: for every non-empty source text and every file path, `chunk_file`
returns at least one chunk, whatever the parse outcome: on a `SyntaxError`
the windowing fallback runs on a non-empty line list, and on a successful
parse whose top-level walk produced no chunks the same fallback runs. -/
theorem c5_chunk_coverage (minSz maxSz : Nat) (pr : Option (List PyNode))
    (content fp : String) (h : content ≠ "") :
    chunkFile minSz maxSz pr content fp ≠ [] := by
  unfold chunkFile
  rw [if_neg h]
  cases pr with
  | none => exact fallbackChunking_ne_nil content fp
  | some nodes =>
    show (let chunks := nodes.flatMap (nodeChunks minSz maxSz fp);
      if chunks = [] ∧ 0 < content.length then fallbackChunking content fp
      else chunks) ≠ []
    by_cases hc : nodes.flatMap (nodeChunks minSz maxSz fp) = [] ∧ 0 < content.length
    · simpa [hc] using fallbackChunking_ne_nil content fp
    · simp only [if_neg hc]
      intro hnil
      exact hc ⟨hnil, str_length_pos h⟩

/-- C5 witness: a one-character non-Python file (parse fails) still yields a
chunk. -/
theorem c5_witness :
    chunkFile defaultMinChunkSize defaultMaxChunkSize none "x" "notes.txt" ≠ [] :=
  c5_chunk_coverage defaultMinChunkSize defaultMaxChunkSize none "x" "notes.txt"
    (by decide)

/-! ### C9 — empty file listing terminates the run -/

/-- C9: when the file-listing capability returns an empty listing, the run
emits exactly `init` then `error` and stops: no planning round, no fetch, no
indexing, no retry; the final store state is the reset state with `repo_url`
assigned (the reset and the assignment happen before the listing check). -/
theorem c9_empty_listing (o : AgentOracles) (url : String) (s0 : VState)
    (h : o.listing = []) :
    agentStream o url s0 =
      ([Ev.init, Ev.error], { resetCollection s0 with repoUrl := some url }) := by
  simp [agentStream, h]

/-- An oracle environment whose listing call fails (empty list). -/
def c9Oracles : AgentOracles :=
  { emb := fun _ => [], parseOf := fun _ => none, listing := [],
    planOut := fun _ => [], fetch := fun _ => "" }

/-- C9 witness: concrete run with an empty listing. -/
theorem c9_witness :
    agentStream c9Oracles "https://github.com/x/y" emptyState =
      ([Ev.init, Ev.error], { emptyState with repoUrl := some "https://github.com/x/y" }) :=
  c9_empty_listing c9Oracles "https://github.com/x/y" emptyState rfl

/-! ### C10 — reset completeness -/

/-- C10: immediately after `reset()`, `search_hybrid` returns the empty list
for every query (the fresh collection yields no dense results and
`self.bm25` is `None`, so fusion runs over nothing) and
`get_documents_by_file` returns the empty list for every path, previously
indexed or not. -/
theorem c10_reset_completeness (emb : EmbedFn) (bms : BmScoreFn) (s : VState)
    (q p : String) (k : Nat) :
    searchHybrid emb bms (resetCollection s) q k = [] ∧
    getDocumentsByFile (resetCollection s) p = [] := by
  constructor
  · unfold searchHybrid vectorResults bm25Results resetCollection emptyState
    by_cases h : emb q = [] <;>
      simp [h, denseQuery, fusedOf, fuseFrom, List.insertionSort]
  · rfl

/-! ### C8 — uniqueness of store-assigned document ids -/

/-- An embedding capability that always succeeds with a 1-dimensional
vector. -/
def embOk : EmbedFn := fun _ => [1]

/-- The reduced metadata the callers attach to every chunk of file `a`. -/
def metaFileA : Metadata :=
  { file := "a", type := "function", name := "f", cls := "", startLine := none }

/-- The store after adding two chunks of file `a` and then one more chunk of
the same file in a second `add_documents` call. -/
def c8State : VState :=
  (addDocuments embOk
    (addDocuments embOk emptyState ["d1", "d2"] [metaFileA, metaFileA]).1
    ["d3"] [metaFileA]).1

/-- C8: the id scheme assigns `f"{file}_{len(self.doc_store) + i}"` where
`len(self.doc_store)` is read *after* the `i` earlier documents of the same
batch were already appended, so the numeric suffixes of one batch advance by
two (0, 2, 4, …) and a later batch for the same file starts inside the gap:
adding two chunks of file `a` and then one more yields ids
`a_0`, `a_2`, `a_2` — a duplicate, contradicting the claimed uniqueness. -/
theorem c8_duplicate_ids :
    (c8State.docStore.map (fun d => d.id)) = ["a_0", "a_2", "a_2"] ∧
    ¬ (c8State.docStore.map (fun d => d.id)).Nodup := by
  decide

/-! ### C3 — an individual embedding failure within a batch -/

/-- An embedding capability that fails (empty vector) on one specific
document and succeeds on every other. -/
def embPartial : EmbedFn := fun d => if d = "okdoc" then [1] else []

/-- Metadata for file `f.py` as the callers build it. -/
def metaFileF : Metadata :=
  { file := "f.py", type := "function", name := "g", cls := "", startLine := none }

/-- The result of `add_documents(["faildoc", "okdoc"], …)` on a fresh store
when the embedding of `"faildoc"` fails and that of `"okdoc"` succeeds. -/
def c3Result : VState × Bool :=
  addDocuments embPartial emptyState ["faildoc", "okdoc"] [metaFileF, metaFileF]

/-- C3: the claim (and the code's evident intent) is graceful degradation —
the chunk whose embedding failed stays lexically searchable and the batch
completes.  In fact, with one failed and one successful embedding the call
passes the *full* `documents`/`metadatas` lists but the *filtered*
`embeddings`/`ids` lists to `collection.add`; the chroma length validation
rejects the record set, the exception escapes `add_documents` before the
BM25 rebuild (flag `true`), and the batch aborts: both documents sit in
`doc_store` but the dense index is unchanged and no BM25 object exists, so
neither chunk is searchable at all — `search_hybrid` returns `[]` for every
query. -/
theorem c3_partial_embedding_failure_aborts :
    c3Result.2 = true ∧
    c3Result.1.docStore.length = 2 ∧
    c3Result.1.collection = [] ∧
    c3Result.1.bm25corpus = none ∧
    ∀ (bms : BmScoreFn) (q : String) (k : Nat),
      searchHybrid embPartial bms c3Result.1 q k = [] := by
  refine ⟨by decide, by decide, by decide, by decide, ?_⟩
  intro bms q k
  have hcol : c3Result.1.collection = [] := by decide
  have hbm : c3Result.1.bm25corpus = none := by decide
  unfold searchHybrid vectorResults bm25Results
  rw [hcol, hbm]
  by_cases h : embPartial q = [] <;>
    simp [h, denseQuery, fusedOf, fuseFrom, List.insertionSort]

/-! ### C2 — `get_documents_by_file` -/

theorem mem_insertSet_of_mem {x : String} (y : String) {l : List String}
    (h : x ∈ l) : x ∈ insertSet y l := by
  unfold insertSet
  split
  · exact h
  · exact List.mem_append_left _ h

theorem self_mem_insertSet (y : String) (l : List String) : y ∈ insertSet y l := by
  unfold insertSet
  split
  · assumption
  · simp

theorem addDocsLoop_state (emb : EmbedFn) (acc : VState × List (List ℚ) × List String)
    (p : Nat × String × Metadata) :
    (addDocsLoop emb acc p).1 = { acc.1 with
      indexedFiles := insertSet p.2.2.file acc.1.indexedFiles,
      docStore := acc.1.docStore ++
        [{ id := p.2.2.file ++ "_" ++ toString (acc.1.docStore.length + p.1),
           content := p.2.1, metadata := p.2.2 }] } := by
  obtain ⟨s, embs, ids⟩ := acc
  obtain ⟨i, doc, m⟩ := p
  unfold addDocsLoop
  dsimp only
  split <;> rfl

theorem foldl_addDocsLoop_indexed (emb : EmbedFn) (L : List (Nat × String × Metadata)) :
    ∀ acc : VState × List (List ℚ) × List String,
      (∀ x ∈ acc.1.indexedFiles, x ∈ (L.foldl (addDocsLoop emb) acc).1.indexedFiles) ∧
      ((∀ d ∈ acc.1.docStore, d.metadata.file ∈ acc.1.indexedFiles) →
        ∀ d ∈ (L.foldl (addDocsLoop emb) acc).1.docStore,
          d.metadata.file ∈ (L.foldl (addDocsLoop emb) acc).1.indexedFiles) := by
  induction L with
  | nil => exact fun acc => ⟨fun x hx => hx, fun h => h⟩
  | cons p ps ih =>
    intro acc
    obtain ⟨ih1, ih2⟩ := ih (addDocsLoop emb acc p)
    rw [List.foldl_cons]
    constructor
    · intro x hx
      apply ih1
      rw [addDocsLoop_state]
      exact mem_insertSet_of_mem _ hx
    · intro hinv
      apply ih2
      intro d hd
      rw [addDocsLoop_state] at hd ⊢
      rcases List.mem_append.mp hd with h1 | h2
      · exact mem_insertSet_of_mem _ (hinv d h1)
      · simp only [List.mem_singleton] at h2
        rw [h2]
        exact self_mem_insertSet _ _

theorem addDocuments_inv (emb : EmbedFn) (docs : List String) (metas : List Metadata)
    {s : VState} (h : ∀ d ∈ s.docStore, d.metadata.file ∈ s.indexedFiles) :
    ∀ d ∈ (addDocuments emb s docs metas).1.docStore,
      d.metadata.file ∈ (addDocuments emb s docs metas).1.indexedFiles := by
  by_cases hd : docs = []
  · simpa [addDocuments, hd] using h
  · have hfold := (foldl_addDocsLoop_indexed emb (docs.zip metas).enum (s, [], [])).2 h
    unfold addDocuments
    rw [if_neg hd]
    dsimp only
    by_cases he : ((docs.zip metas).enum.foldl (addDocsLoop emb) (s, [], [])).2.1 = []
    · simpa [he] using hfold
    · cases hck : chromaAdd
          ((docs.zip metas).enum.foldl (addDocsLoop emb) (s, [], [])).1.collection docs
          ((docs.zip metas).enum.foldl (addDocsLoop emb) (s, [], [])).2.1 metas
          ((docs.zip metas).enum.foldl (addDocsLoop emb) (s, [], [])).2.2 with
      | error e => simpa [he, hck] using hfold
      | ok col => simpa [he, hck] using hfold

/-- Every reachable session state keeps the files of all stored documents in
`indexed_files`: `add_documents` registers the file of every appended chunk
and `reset_collection` clears both structures together. -/
theorem reachable_files_indexed {s : VState} (h : Reachable s) :
    ∀ d ∈ s.docStore, d.metadata.file ∈ s.indexedFiles := by
  induction h with
  | empty => intro d hd; simp [emptyState] at hd
  | reset s' _ _ => intro d hd; simp [resetCollection, emptyState] at hd
  | setUrl u _ ih => exact ih
  | add emb docs metas _ ih => exact addDocuments_inv emb docs metas ih

/-- C2: `get_documents_by_file(p)` returns exactly the stored documents whose
metadata `file` equals `p` (as a permutation of the filtered store, in the
result format), sorted ascending by the `start_line` key (default 0), and it
returns the empty sequence whenever `p` was never indexed in the session
(`p ∉ indexed_files`, which by the invariant above means no stored document
carries it). -/
theorem c2_get_by_file (s : VState) (hr : Reachable s) (p : String) :
    List.Sorted startLineLe (getDocumentsByFile s p) ∧
    (getDocumentsByFile s p).Perm
      ((s.docStore.filter (fun d => d.metadata.file = p)).map
        (fun d => { id := d.id, content := d.content, file := d.metadata.file,
                    metadata := d.metadata, score := (1 : ℚ) })) ∧
    (∀ r ∈ getDocumentsByFile s p, r.metadata.file = p ∧ r.file = p) ∧
    (p ∉ s.indexedFiles → getDocumentsByFile s p = []) := by
  refine ⟨List.sorted_insertionSort startLineLe _, List.perm_insertionSort startLineLe _,
    ?_, ?_⟩
  · intro r hr'
    unfold getDocumentsByFile at hr'
    rw [List.mem_insertionSort] at hr'
    obtain ⟨d, hd, hfd⟩ := List.mem_map.mp hr'
    have hfile : d.metadata.file = p := by
      have := List.of_mem_filter hd
      simpa using this
    rw [← hfd]
    exact ⟨hfile, hfile⟩
  · intro hp
    have hfil : s.docStore.filter (fun d => d.metadata.file = p) = [] := by
      rw [List.filter_eq_nil_iff]
      intro d hd
      simp only [decide_eq_true_eq]
      intro hfd
      exact hp (hfd ▸ reachable_files_indexed hr d hd)
    unfold getDocumentsByFile
    rw [hfil]
    rfl

/-- The store after indexing one chunk of file `g.py` starting from a fresh
session. -/
def c2State : VState :=
  (addDocuments embOk emptyState ["print(1)"]
    [{ file := "g.py", type := "raw", name := "n", cls := "", startLine := none }]).1

/-- C2 witness: a path that was never indexed yields the empty sequence on a
concrete reachable store. -/
theorem c2_witness : getDocumentsByFile c2State "h.py" = [] := by
  have h := c2_get_by_file c2State
    (Reachable.add embOk ["print(1)"]
      [{ file := "g.py", type := "raw", name := "n", cls := "", startLine := none }]
      Reachable.empty) "h.py"
  exact h.2.2.2 (by decide)

/-! ### C4 — weighted reciprocal-rank fusion -/

/-- The total contribution a result list starting at rank `n` makes to the
fused score of id `i`: `w * (1/(k + rank + 1))` per occurrence. -/
def contribFrom (w : ℚ) (i : String) : Nat → List RDoc → ℚ
  | _, [] => 0
  | n, it :: l =>
    (if it.id = i then w * (1 / (kConst + n + 1)) else 0) + contribFrom w i (n + 1) l

/-- The score stored in the `fused_scores` dictionary for id `i` (0 when the
id is absent). -/
def fusedScoreOf (F : List FEntry) (i : String) : ℚ :=
  match F.find? (fun e => decide (e.item.id = i)) with
  | some e => e.score
  | none => 0

theorem fusedScoreOf_map_upd_self (tid : String) (δ : ℚ) (F : List FEntry) :
    fusedScoreOf (F.map (fun e =>
        if e.item.id = tid then { e with score := e.score + δ } else e)) tid =
      if F.any (fun e => decide (e.item.id = tid)) then fusedScoreOf F tid + δ
      else 0 := by
  induction F with
  | nil => simp [fusedScoreOf]
  | cons x xs ih =>
    by_cases hx : x.item.id = tid
    · simp [fusedScoreOf, List.find?, List.any_cons, hx]
    · simp only [List.map_cons, List.any_cons]
      have hpred : (decide (x.item.id = tid)) = false := by simp [hx]
      simp only [fusedScoreOf, List.find?, hx, if_neg hx, hpred] at ih ⊢
      simpa [hpred, hx] using ih

theorem fusedScoreOf_map_upd_other (tid : String) (δ : ℚ) (F : List FEntry)
    (i : String) (hi : i ≠ tid) :
    fusedScoreOf (F.map (fun e =>
        if e.item.id = tid then { e with score := e.score + δ } else e)) i =
      fusedScoreOf F i := by
  have hitem : ∀ e : FEntry,
      ((if e.item.id = tid then { e with score := e.score + δ } else e) : FEntry).item
        = e.item := by
    intro e
    split <;> rfl
  induction F with
  | nil => simp [fusedScoreOf]
  | cons x xs ih =>
    by_cases hx : x.item.id = i
    · have hxt : ¬ x.item.id = tid := by rw [hx]; exact hi
      simp [fusedScoreOf, List.find?, hx, hxt, hi]
    · simp only [List.map_cons, fusedScoreOf, List.find?, hitem] at ih ⊢
      have h1 : (decide (x.item.id = i)) = false := by simp [hx]
      rw [h1]
      exact ih

theorem fusedScoreOf_append (F G : List FEntry) (i : String) :
    fusedScoreOf (F ++ G) i =
      match F.find? (fun e => decide (e.item.id = i)) with
      | some e => e.score
      | none => fusedScoreOf G i := by
  induction F with
  | nil => simp [List.find?]
  | cons y ys ih =>
    by_cases hy : y.item.id = i
    · simp [fusedScoreOf, List.find?, hy]
    · have hpred : (decide (y.item.id = i)) = false := by simp [hy]
      simp only [List.cons_append, fusedScoreOf, List.find?, hpred] at ih ⊢
      exact ih

/-- One `addContrib` step changes exactly the fused score of the touched id,
by `w * (1/(k + rank + 1))`. -/
theorem fusedScoreOf_addContrib (w : ℚ) (F : List FEntry) (n : Nat) (it : RDoc)
    (i : String) :
    fusedScoreOf (addContrib w F n it) i =
      fusedScoreOf F i + (if it.id = i then w * (1 / (kConst + n + 1)) else 0) := by
  unfold addContrib
  by_cases hany : F.any (fun e => decide (e.item.id = it.id))
  · rw [if_pos hany]
    by_cases hit : it.id = i
    · subst hit
      rw [fusedScoreOf_map_upd_self, if_pos hany, if_pos rfl]
    · rw [fusedScoreOf_map_upd_other _ _ _ _ (fun h => hit h.symm), if_neg hit,
        add_zero]
  · rw [if_neg hany]
    rw [fusedScoreOf_append]
    cases hf : F.find? (fun e => decide (e.item.id = i)) with
    | some e =>
      have hmem := List.find?_some hf
      have hein := List.mem_of_find?_eq_some hf
      simp only [decide_eq_true_eq] at hmem
      have hit : ¬ it.id = i := by
        intro hcon
        exact hany (List.any_eq_true.mpr ⟨e, hein, by simp [hmem, hcon]⟩)
      simp [fusedScoreOf, hf, hit]
    | none =>
      by_cases hit : it.id = i
      · simp [fusedScoreOf, hf, hit]
      · simp [fusedScoreOf, hf, hit]

/-- Folding a whole result list: the fused score of `i` grows by exactly the
list's contribution. -/
theorem fusedScoreOf_fuseFrom (w : ℚ) (F : List FEntry) (n : Nat) (l : List RDoc)
    (i : String) :
    fusedScoreOf (fuseFrom w F n l) i = fusedScoreOf F i + contribFrom w i n l := by
  induction l generalizing F n with
  | nil => simp [fuseFrom, contribFrom]
  | cons it l ih =>
    rw [fuseFrom, ih, fusedScoreOf_addContrib, contribFrom]
    ring

/-- The fused score decomposes into the dense contribution (weight 1.0) plus
the lexical contribution (weight 0.3). -/
theorem fusedScoreOf_fusedOf (vres bres : List RDoc) (i : String) :
    fusedScoreOf (fusedOf vres bres) i =
      contribFrom weightVector i 0 vres + contribFrom weightBm25 i 0 bres := by
  unfold fusedOf
  rw [fusedScoreOf_fuseFrom, fusedScoreOf_fuseFrom]
  have : fusedScoreOf ([] : List FEntry) i = 0 := rfl
  rw [this, zero_add]

theorem contribFrom_eq_zero (w : ℚ) (i : String) (n : Nat) (l : List RDoc)
    (h : ∀ x ∈ l, x.id ≠ i) : contribFrom w i n l = 0 := by
  induction l generalizing n with
  | nil => rfl
  | cons x xs ih =>
    rw [contribFrom, if_neg (h x (List.mem_cons_self x xs)), zero_add]
    exact ih _ fun y hy => h y (List.mem_cons_of_mem x hy)

theorem contribFrom_single (w : ℚ) (i : String) (pre post : List RDoc) (d : RDoc)
    (hd : d.id = i) (hpre : ∀ x ∈ pre, x.id ≠ i) (hpost : ∀ x ∈ post, x.id ≠ i) :
    ∀ n : Nat, contribFrom w i n (pre ++ d :: post) =
      w * (1 / (kConst + (n + pre.length) + 1)) := by
  induction pre with
  | nil =>
    intro n
    rw [List.nil_append, contribFrom, if_pos hd, contribFrom_eq_zero w i _ _ hpost]
    simp
  | cons x xs ih =>
    intro n
    rw [List.cons_append, contribFrom,
      if_neg (hpre x (List.mem_cons_self x xs)), zero_add,
      ih (fun y hy => hpre y (List.mem_cons_of_mem x hy)) (n + 1)]
    push_cast [List.length_cons]
    ring_nf

/-- C4: in the rank fusion of `search_hybrid`, a document occurring at
0-based rank `|pv|` of the dense list and rank `|pb|` of the lexical list
accumulates `1.0/(60 + rank + 1)` from the dense list plus
`0.3/(60 + rank + 1)` from the lexical list; the lexical weight 0.3 is
strictly below the dense weight 1.0; and the accumulated score is at least
the score the document would get with any lexical result list that does not
contain it — i.e. at least its dense-only score at the same rank. -/
theorem c4_fusion_monotonicity (vres bres : List RDoc) (i : String)
    (pv sv pb sb : List RDoc) (dv db : RDoc)
    (hv : vres = pv ++ dv :: sv) (hdv : dv.id = i)
    (hpv : ∀ x ∈ pv, x.id ≠ i) (hsv : ∀ x ∈ sv, x.id ≠ i)
    (hb : bres = pb ++ db :: sb) (hdb : db.id = i)
    (hpb : ∀ x ∈ pb, x.id ≠ i) (hsb : ∀ x ∈ sb, x.id ≠ i) :
    fusedScoreOf (fusedOf vres bres) i =
        weightVector * (1 / (kConst + pv.length + 1)) +
        weightBm25 * (1 / (kConst + pb.length + 1)) ∧
    weightBm25 < weightVector ∧
    (∀ bres2 : List RDoc, (∀ x ∈ bres2, x.id ≠ i) →
        fusedScoreOf (fusedOf vres bres2) i ≤ fusedScoreOf (fusedOf vres bres) i) := by
  have hmain : fusedScoreOf (fusedOf vres bres) i =
      weightVector * (1 / (kConst + pv.length + 1)) +
      weightBm25 * (1 / (kConst + pb.length + 1)) := by
    rw [fusedScoreOf_fusedOf, hv, hb,
      contribFrom_single weightVector i pv sv dv hdv hpv hsv 0,
      contribFrom_single weightBm25 i pb sb db hdb hpb hsb 0]
    norm_num
  refine ⟨hmain, by norm_num [weightBm25, weightVector], ?_⟩
  intro bres2 h2
  rw [hmain, fusedScoreOf_fusedOf, contribFrom_eq_zero weightBm25 i 0 bres2 h2,
    add_zero, hv, contribFrom_single weightVector i pv sv dv hdv hpv hsv 0]
  have hpos : (0 : ℚ) ≤ weightBm25 * (1 / (kConst + pb.length + 1)) := by
    have h61 : (0 : ℚ) < kConst + pb.length + 1 := by
      have : (0 : ℚ) ≤ (pb.length : ℚ) := Nat.cast_nonneg _
      norm_num [kConst]
      linarith
    have : (0 : ℚ) ≤ 1 / (kConst + pb.length + 1) := le_of_lt (by positivity)
    have hw : (0 : ℚ) ≤ weightBm25 := by norm_num [weightBm25]
    exact mul_nonneg hw this
  simp only [Nat.cast_zero, zero_add]
  linarith [hpos]

/-- The shared document of the C4 witness. -/
def c4Item : RDoc := toResult "x" "def g(): pass" metaFileF

/-- C4 witness: a document at rank 0 of both one-element result lists scores
`1/61 + (3/10)/61 = 13/610`, and the lexical weight is below the dense
one. -/
theorem c4_witness :
    fusedScoreOf (fusedOf [c4Item] [c4Item]) "x" = 13 / 610 ∧
    weightBm25 < weightVector := by
  have h := c4_fusion_monotonicity [c4Item] [c4Item] "x" [] [] [] [] c4Item c4Item
    rfl rfl (by simp) (by simp) rfl rfl (by simp) (by simp)
  refine ⟨?_, h.2.1⟩
  rw [h.1]
  norm_num [weightVector, weightBm25, kConst]

/-! ### C6 — result ordering and tie-breaking -/

/-- Inserting into the descending-by-score order preserves the subsequence
of entries with any given exact score (the inserted entry, when it has that
score, lands in front of them). -/
theorem filter_score_orderedInsert (c : ℚ) (x : FEntry) (l : List FEntry) :
    (List.orderedInsert fusedGe x l).filter (fun e => decide (e.score = c)) =
      if x.score = c then x :: l.filter (fun e => decide (e.score = c))
      else l.filter (fun e => decide (e.score = c)) := by
  induction l with
  | nil => by_cases hx : x.score = c <;> simp [List.orderedInsert, hx]
  | cons y ys ih =>
    rw [List.orderedInsert]
    by_cases hr : fusedGe x y
    · rw [if_pos hr]
      by_cases hx : x.score = c <;> simp [List.filter_cons, hx]
    · rw [if_neg hr]
      have hlt : x.score < y.score := not_le.mp hr
      by_cases hx : x.score = c
      · have hy : ¬ y.score = c := by
          rw [← hx]
          exact ne_of_gt hlt
        simp [List.filter_cons, hx, hy, ih]
      · by_cases hy : y.score = c <;> simp [List.filter_cons, hx, hy, ih]

/-- Python's stable `sorted(…, reverse=True)`: the sort keeps entries of
equal fused score in their original (dictionary-insertion) order. -/
theorem filter_score_insertionSort (c : ℚ) (l : List FEntry) :
    (List.insertionSort fusedGe l).filter (fun e => decide (e.score = c)) =
      l.filter (fun e => decide (e.score = c)) := by
  induction l with
  | nil => rfl
  | cons x xs ih =>
    rw [List.insertionSort, filter_score_orderedInsert, ih]
    by_cases hx : x.score = c <;> simp [List.filter_cons, hx]

/-- C6 (amended): `search_hybrid` returns the first `top_k` items of the
fused dictionary sorted by fused score descending; entries of equal fused
score appear in dictionary-insertion order, i.e. in order of first
appearance in the dense result list followed by the lexical result list —
not in document-store order. -/
theorem c6_search_order (emb : EmbedFn) (bms : BmScoreFn) (s : VState) (q : String)
    (k : Nat) :
    searchHybrid emb bms s q k =
      ((List.insertionSort fusedGe
          (fusedOf (vectorResults emb s q k) (bm25Results bms s q k))).take k).map
        (fun e => e.item) ∧
    List.Sorted fusedGe (List.insertionSort fusedGe
      (fusedOf (vectorResults emb s q k) (bm25Results bms s q k))) ∧
    ∀ c : ℚ, (List.insertionSort fusedGe
        (fusedOf (vectorResults emb s q k) (bm25Results bms s q k))).filter
          (fun e => decide (e.score = c)) =
      (fusedOf (vectorResults emb s q k) (bm25Results bms s q k)).filter
        (fun e => decide (e.score = c)) :=
  ⟨rfl, List.sorted_insertionSort _ _, fun c => filter_score_insertionSort c _⟩

/-- Plain metadata for a file of the C6 scenario. -/
def mFileC6 (f : String) : Metadata :=
  { file := f, type := "function", name := "n", cls := "", startLine := none }

/-- Document `B`, stored first. -/
def docB : Doc := { id := "B", content := "bcontent", metadata := mFileC6 "b.py" }

/-- Document `A`, stored second. -/
def docA : Doc := { id := "A", content := "acontent", metadata := mFileC6 "a.py" }

/-- A 45-document store: `B`, then `A`, then 43 fillers. -/
def c6Store : List Doc :=
  docB :: docA :: ((List.range 43).map fun i =>
    { id := "f" ++ toString (i + 2), content := "filler",
      metadata := mFileC6 "g.py" })

/-- The dense-index record returned at rank `r` for the query: embeddings
`[r]` put the collection in its own order under a query embedding `[0]`;
`A` sits at rank 4 and `B` at rank 19. -/
def c6Rec (r : Nat) : DenseRec :=
  if r = 4 then
    { id := "A", embedding := [(4 : ℚ)], content := "acontent",
      metadata := mFileC6 "a.py" }
  else if r = 19 then
    { id := "B", embedding := [(19 : ℚ)], content := "bcontent",
      metadata := mFileC6 "b.py" }
  else
    { id := "v" ++ toString r, embedding := [(r : ℚ)], content := "vcontent",
      metadata := mFileC6 "v.py" }

/-- The 20-record dense index of the C6 scenario. -/
def c6Col : List DenseRec := (List.range 20).map c6Rec

/-- Lexical scores: document 0 (`B`) scores 1, document 1 (`A`) scores 0
(excluded), the 43 fillers score 2 — which ranks `B` last (rank 43) of the
44 kept lexical results. -/
def c6Scores : List ℚ :=
  (List.range 45).map fun i => if i = 0 then 1 else if i = 1 then 0 else 2

/-- The C6 session state. -/
def c6State : VState :=
  { repoUrl := some "u", indexedFiles := [], docStore := c6Store,
    collection := c6Col, bm25corpus := some (List.replicate 45 ["tok"]) }

/-- Embedding oracle of the C6 scenario. -/
def c6Emb : EmbedFn := fun _ => [0]

/-- Lexical scoring oracle of the C6 scenario. -/
def c6Bms : BmScoreFn := fun _ _ => c6Scores

/-- The search output of the C6 scenario (`top_k = 22`). -/
def c6Out : List RDoc := searchHybrid c6Emb c6Bms c6State "q" 22

set_option maxRecDepth 400000 in
unseal Rat.mul Rat.add Rat.sub Rat.inv in
/-- C6 (counterexample): `A` (dense rank 4) and `B` (dense rank 19, lexical
rank 43) tie at fused score `1/65 = 1/80 + (3/10)/104`, yet the output lists
`A` at position 4 before `B` at position 5 while the document store holds
`B` before `A` — ties follow first appearance in the dense list, not
document-store order as claimed. -/
theorem c6_counterexample :
    fusedScoreOf (fusedOf (vectorResults c6Emb c6State "q" 22)
        (bm25Results c6Bms c6State "q" 22)) "A" =
      fusedScoreOf (fusedOf (vectorResults c6Emb c6State "q" 22)
        (bm25Results c6Bms c6State "q" 22)) "B" ∧
    c6Out[4]? = some (toResult "A" "acontent" (mFileC6 "a.py")) ∧
    c6Out[5]? = some (toResult "B" "bcontent" (mFileC6 "b.py")) ∧
    c6State.docStore[0]? = some docB ∧
    c6State.docStore[1]? = some docA := by
  decide

/-! ### C7 — chunk content length bounds -/

/-- Evaluation of `chunk_file` on a module consisting of one top-level
function whose truthy source segment meets the minimum length: the function
is emitted whole, untruncated. -/
theorem chunkFile_single_func (minSz maxSz : Nat) (nm s fp : String) (ln : Nat)
    (hne : s ≠ "") (hsz : minSz ≤ s.length) :
    chunkFile minSz maxSz (some [PyNode.funcDef nm (some s) ln]) s fp =
      [{ content := s,
         metadata := { file := fp, type := "function", name := nm, cls := "",
                       startLine := some ln } }] := by
  have hchunks : ([PyNode.funcDef nm (some s) ln]).flatMap
      (nodeChunks minSz maxSz fp) =
      [{ content := s,
         metadata := { file := fp, type := "function", name := nm, cls := "",
                       startLine := some ln } }] := by
    simp only [List.flatMap_cons, List.flatMap_nil, List.append_nil, nodeChunks,
      segStr, if_neg hne]
    rw [if_pos hsz]
  unfold chunkFile
  rw [if_neg hne]
  show (if ([PyNode.funcDef nm (some s) ln]).flatMap (nodeChunks minSz maxSz fp) = []
        ∧ 0 < s.length then fallbackChunking s fp
      else ([PyNode.funcDef nm (some s) ln]).flatMap (nodeChunks minSz maxSz fp)) = _
  rw [hchunks]
  rw [if_neg (fun hcontr => List.cons_ne_nil _ _ hcontr.1)]

/-- A 2001-character top-level function body. -/
def c7BigStr : String := String.mk (List.replicate 2001 'a')

theorem c7BigStr_length : c7BigStr.length = 2001 := by
  unfold c7BigStr
  rw [String.length_mk, List.length_replicate]

theorem c7BigStr_ne_empty : c7BigStr ≠ "" := by
  intro h
  have h2 := congrArg String.length h
  rw [c7BigStr_length] at h2
  simp at h2

/-- C7 (counterexample): `chunk_file` applies no truncation on the function
path — a top-level function of 2001 characters is emitted whole, exceeding
`max_chunk_size = 2000`, the only size cap in the code. -/
theorem c7_counterexample :
    (chunkFile defaultMinChunkSize defaultMaxChunkSize
        (some [PyNode.funcDef "f" (some c7BigStr) 1]) c7BigStr "big.py").map
        (fun c => c.content.length) = [2001] ∧
    defaultMaxChunkSize < 2001 := by
  constructor
  · rw [chunkFile_single_func defaultMinChunkSize defaultMaxChunkSize "f" c7BigStr
      "big.py" 1 c7BigStr_ne_empty (by rw [c7BigStr_length]; decide)]
    simp only [List.map_cons, List.map_nil, c7BigStr_length]
  · decide

theorem pyWindows_type (fp : String) :
    ∀ (n : Nat) (ls : List String), ls.length ≤ n → ∀ (i : Nat),
      ∀ c ∈ pyWindows fp ls i, c.metadata.type = "text_chunk" := by
  intro n
  induction n with
  | zero =>
    intro ls hlen i c hc
    rw [List.length_eq_zero.mp (Nat.le_zero.mp hlen)] at hc
    simp [pyWindows] at hc
  | succ n ih =>
    intro ls hlen i c hc
    cases ls with
    | nil => simp [pyWindows] at hc
    | cons l ls2 =>
      rw [pyWindows] at hc
      rcases List.mem_cons.mp hc with h1 | h2
      · rw [h1]
      · refine ih ((l :: ls2).drop 100) ?_ (i + 100) c h2
        simp only [List.length_drop, List.length_cons]
        simp only [List.length_cons] at hlen
        omega

theorem chunkLargeClass_type (fp nm : String) (ds : Option String)
    (body : List PyMember) :
    ∀ c ∈ chunkLargeClass fp nm ds body, c.metadata.type = "method" := by
  intro c hc
  unfold chunkLargeClass at hc
  rw [List.mem_filterMap] at hc
  obtain ⟨m, _, heq⟩ := hc
  cases m with
  | methodDef mn seg ln =>
    dsimp only at heq
    cases hs : segStr seg with
    | none => rw [hs] at heq; exact absurd heq (by simp)
    | some code =>
      rw [hs] at heq
      simp only [Option.some_inj] at heq
      rw [← heq]
  | otherStmt => exact absurd heq (by simp)

theorem fallbackChunking_type (content fp : String) :
    ∀ c ∈ fallbackChunking content fp, c.metadata.type = "text_chunk" := by
  intro c hc
  exact pyWindows_type fp (pySplit (fun ch => ch = '\n') content).length _ le_rfl 0 c hc

/-- C7 (amended): the chunker applies no defensive truncation — for every
candidate cap there is an input whose output contains a longer chunk (a
single long top-level function suffices); the only bounded path is the
whole-class one, where a `class`-typed chunk is emitted only when its source
segment is at most `max_chunk_size` characters. -/
theorem c7_no_truncation :
    (∀ cap : Nat, ∃ (pr : Option (List PyNode)) (content fp : String),
      ∃ c ∈ chunkFile defaultMinChunkSize defaultMaxChunkSize pr content fp,
        cap < c.content.length) ∧
    (∀ (minSz maxSz : Nat) (pr : Option (List PyNode)) (content fp : String),
      ∀ c ∈ chunkFile minSz maxSz pr content fp, c.metadata.type = "class" →
        c.content.length ≤ maxSz) := by
  constructor
  · intro cap
    have hlen : (String.mk (List.replicate (cap + 2001) 'a')).length = cap + 2001 := by
      simp
    have hne : String.mk (List.replicate (cap + 2001) 'a') ≠ "" := by
      intro h
      have h2 := congrArg String.length h
      rw [hlen] at h2
      simp at h2
    refine ⟨some [PyNode.funcDef "f"
        (some (String.mk (List.replicate (cap + 2001) 'a'))) 1],
      String.mk (List.replicate (cap + 2001) 'a'), "big.py", ?_⟩
    rw [chunkFile_single_func defaultMinChunkSize defaultMaxChunkSize "f" _ "big.py" 1
      hne (by rw [hlen]; unfold defaultMinChunkSize; omega)]
    refine ⟨_, List.mem_singleton_self _, ?_⟩
    show cap < (String.mk (List.replicate (cap + 2001) 'a')).length
    rw [hlen]
    omega
  · intro minSz maxSz pr content fp c hc htype
    unfold chunkFile at hc
    by_cases h0 : content = ""
    · rw [if_pos h0] at hc
      exact absurd hc (List.not_mem_nil c)
    · rw [if_neg h0] at hc
      cases pr with
      | none =>
        have := fallbackChunking_type content fp c hc
        rw [htype] at this
        exact absurd this (by decide)
      | some nodes =>
        replace hc : c ∈ (if nodes.flatMap (nodeChunks minSz maxSz fp) = []
            ∧ 0 < content.length then fallbackChunking content fp
            else nodes.flatMap (nodeChunks minSz maxSz fp)) := hc
        by_cases hcond : nodes.flatMap (nodeChunks minSz maxSz fp) = [] ∧
            0 < content.length
        · rw [if_pos hcond] at hc
          have := fallbackChunking_type content fp c hc
          rw [htype] at this
          exact absurd this (by decide)
        · rw [if_neg hcond] at hc
          rw [List.mem_flatMap] at hc
          obtain ⟨nd, _, hcnd⟩ := hc
          cases nd with
          | classDef nm seg ds body ln =>
            unfold nodeChunks at hcnd
            dsimp only at hcnd
            cases hs : segStr seg with
            | none => rw [hs] at hcnd; exact absurd hcnd (List.not_mem_nil c)
            | some code =>
              rw [hs] at hcnd
              dsimp only at hcnd
              by_cases hsz : code.length ≤ maxSz
              · rw [if_pos hsz] at hcnd
                rw [List.mem_singleton.mp hcnd]
                exact hsz
              · rw [if_neg hsz] at hcnd
                have := chunkLargeClass_type fp nm ds body c hcnd
                rw [htype] at this
                exact absurd this (by decide)
          | funcDef nm seg ln =>
            unfold nodeChunks at hcnd
            dsimp only at hcnd
            cases hs : segStr seg with
            | none => rw [hs] at hcnd; exact absurd hcnd (List.not_mem_nil c)
            | some code =>
              rw [hs] at hcnd
              dsimp only at hcnd
              by_cases hsz : minSz ≤ code.length
              · rw [if_pos hsz] at hcnd
                rw [List.mem_singleton.mp hcnd] at htype
                exact absurd htype (by simp)
              · rw [if_neg hsz] at hcnd
                exact absurd hcnd (List.not_mem_nil c)
          | other => exact absurd hcnd (List.not_mem_nil c)

end GithubAgent
